import Mathlib

/-!  Verification of the to-do list task manager (`src/src/main.rs`).

We shallowly embed the Rust program.  Rust `String` is modeled as `List Char`;
chrono's `DateTime<Utc>` as a record of civil UTC calendar fields; the
file-reading and file-writing operations as pure functions from and to file
contents (a file that failed to open is `none`).

Domain notes for the `DateTime` model (deliberate, documented restrictions):

* years are restricted to `0..=9999`, the range produced by the 4-digit
  zero-padded `Display` format; chrono supports a wider range (roughly
  ±262000 years) whose members this model treats as out of range, so a
  stored timestamp naming such a year is modeled as a parse failure;
* leap seconds (chrono's nanosecond field `≥ 10^9`) are excluded.

The chrono behavior embedded here is that of chrono 0.4.3x: `Display` for
`DateTime<Utc>` prints `YYYY-MM-DD HH:MM:SS[.frac] UTC`, and `FromStr` is the
relaxed RFC 3339 parser, which accepts the string `Display` produces
(including the trailing `UTC` timezone name).
-/

namespace Todo

/-- Rust `String` / `&str`, modeled as a list of characters. -/
abbrev RStr := List Char

/-- Rust `char::is_whitespace` (the Unicode White_Space property). -/
def isWsChar (c : Char) : Bool :=
  (9 ≤ c.toNat && c.toNat ≤ 13) || c.toNat == 32 || c.toNat == 133 || c.toNat == 160 ||
    c.toNat == 5760 || (8192 ≤ c.toNat && c.toNat ≤ 8202) || c.toNat == 8232 ||
    c.toNat == 8233 || c.toNat == 8239 || c.toNat == 8287 || c.toNat == 12288

/-- ASCII digit test, as chrono's scanners use on bytes `b'0'..=b'9'`. -/
def isDigitChar (c : Char) : Bool :=
  48 ≤ c.toNat && c.toNat ≤ 57

/-- Rust `str::trim_start` (also chrono's whitespace skipping before numeric items). -/
def trimStart (l : RStr) : RStr := l.dropWhile isWsChar

/-- Rust `str::trim_end`. -/
def trimEnd (l : RStr) : RStr := (l.reverse.dropWhile isWsChar).reverse

/-- Rust `str::trim`, as applied by `add_task` to both input lines. -/
def rustTrim (l : RStr) : RStr := trimEnd (trimStart l)

/-- Rust `str::split(sep).collect::<Vec<_>>()` for a one-character separator. -/
def rustSplit (sep : Char) : RStr → List RStr
  | [] => [[]]
  | c :: cs =>
    if c = sep then [] :: rustSplit sep cs
    else (rustSplit sep cs).modifyHead (c :: ·)

/-- Strip one trailing carriage return; `BufRead::lines` does this on every
    line that was terminated by a newline byte. -/
def stripCR (l : RStr) : RStr := if l.getLast? = some '\r' then l.dropLast else l

/-- Worker for `linesOf`: `cur` is the partial line accumulated so far. -/
def linesAux : RStr → RStr → List RStr
  | cur, [] => if cur = [] then [] else [cur]
  | cur, c :: cs =>
    if c = '\n' then stripCR cur :: linesAux [] cs else linesAux (cur ++ [c]) cs

/-- Rust `io::BufReader::lines` applied to the whole file contents: split at
    `'\n'`, strip a trailing `'\r'` from newline-terminated lines, keep a final
    unterminated line as is, and yield nothing after a final newline. -/
def linesOf (cs : RStr) : List RStr := linesAux [] cs

/-- chrono `DateTime<Utc>`: an instant, stored as its civil UTC calendar
    fields (see the domain notes in the file header). -/
structure DateTime where
  year : Nat
  month : Nat
  day : Nat
  hour : Nat
  minute : Nat
  second : Nat
  nano : Nat
  deriving DecidableEq, Repr

/-- chrono's proleptic-Gregorian leap-year rule. -/
def isLeapYear (y : Nat) : Bool := y % 4 == 0 && (y % 100 != 0 || y % 400 == 0)

def daysInMonth (y m : Nat) : Nat :=
  if m = 2 then (if isLeapYear y then 29 else 28)
  else if m = 4 ∨ m = 6 ∨ m = 9 ∨ m = 11 then 30
  else 31

/-- The invariant chrono's constructors enforce on a `DateTime<Utc>` value,
    within this model's documented year/leap-second domain. -/
def DateTime.Valid (dt : DateTime) : Prop :=
  1 ≤ dt.month ∧ dt.month ≤ 12 ∧ 1 ≤ dt.day ∧ dt.day ≤ daysInMonth dt.year dt.month ∧
    dt.year ≤ 9999 ∧ dt.hour ≤ 23 ∧ dt.minute ≤ 59 ∧ dt.second ≤ 59 ∧ dt.nano ≤ 999999999

instance (dt : DateTime) : Decidable dt.Valid := by
  unfold DateTime.Valid; infer_instance

/-- Mixed-radix linearization of the civil fields; on valid values its order
    is chronological order, which is how chrono compares two `DateTime<Utc>`. -/
def DateTime.key (dt : DateTime) : Nat :=
  ((((((dt.year * 13 + dt.month) * 32 + dt.day) * 24 + dt.hour) * 60 + dt.minute) * 60
      + dt.second) * 1000000000) + dt.nano

/-- chrono ordering `a <= b` on `DateTime<Utc>`. -/
def DateTime.le (a b : DateTime) : Prop := a.key ≤ b.key

instance (a b : DateTime) : Decidable (a.le b) :=
  inferInstanceAs (Decidable (a.key ≤ b.key))

/-- The task record of `main.rs`. -/
structure Task where
  description : RStr
  due_date : Option DateTime
  deriving DecidableEq, Repr

/-- `Task::new`. -/
def Task.new (description : RStr) (due_date : Option DateTime) : Task :=
  ⟨description, due_date⟩

/-- `Task::is_due`: the source reads `Utc::now()` internally; the model passes
    the current instant `now` explicitly.  Returns `now >= due_date` when a due
    date is present, `false` otherwise. -/
def Task.is_due (t : Task) (now : DateTime) : Bool :=
  match t.due_date with
  | some d => decide (DateTime.le d now)
  | none => false

/-- The prop form of `dt.Valid` on the payload of an optional due date
    (`False` when absent); decidable, for concrete witnesses. -/
def dueValid : Option DateTime → Prop
  | some d => d.Valid
  | none => False

instance : (o : Option DateTime) → Decidable (dueValid o)
  | some d => inferInstanceAs (Decidable d.Valid)
  | none => inferInstanceAs (Decidable False)

/-- The ASCII digit character for `n < 10`. -/
def digitChar (n : Nat) : Char := Char.ofNat (48 + n)

/-- Zero-padded fixed-width decimal rendering, most significant digit first. -/
def padDigits : Nat → Nat → RStr
  | 0, _ => []
  | k + 1, n => padDigits k (n / 10) ++ [digitChar (n % 10)]

/-- Value of a (most-significant-first) digit string. -/
def digitsVal (ds : RStr) : Nat := ds.foldl (fun a c => a * 10 + (c.toNat - 48)) 0

/-- chrono `Fixed::Nanosecond` formatting: nothing when the nanosecond field is
    zero, otherwise a dot and the shortest of 3, 6 or 9 digits. -/
def fracOf (nano : Nat) : RStr :=
  if nano = 0 then []
  else if nano % 1000000 = 0 then '.' :: padDigits 3 (nano / 1000000)
  else if nano % 1000 = 0 then '.' :: padDigits 6 (nano / 1000)
  else '.' :: padDigits 9 nano

/-- The naive (offset-less) part of chrono's `Display`:
    `YYYY-MM-DD HH:MM:SS[.frac]`. -/
def displayNaive (dt : DateTime) : RStr :=
  padDigits 4 dt.year ++ '-' :: (padDigits 2 dt.month ++ '-' :: (padDigits 2 dt.day ++ ' ' ::
    (padDigits 2 dt.hour ++ ':' :: (padDigits 2 dt.minute ++ ':' ::
      (padDigits 2 dt.second ++ fracOf dt.nano)))))

/-- chrono `Display` for `DateTime<Utc>`: the naive fields, a space, and the
    timezone name `UTC`.  This is what `save_tasks` and `export_tasks_to_csv`
    write with `{}`. -/
def displayDT (dt : DateTime) : RStr := displayNaive dt ++ ' ' :: ['U', 'T', 'C']

/-- chrono `scan::number(s, 1, maxD)`: greedily read between 1 and `maxD`
    ASCII digits. -/
def scanNumber (maxD : Nat) (cs : RStr) : Option (Nat × RStr) :=
  let ds := (cs.take maxD).takeWhile isDigitChar
  if ds = [] then none else some (digitsVal ds, cs.drop ds.length)

/-- chrono `Item::Literal`: match one exact character. -/
def expectChar (c : Char) (cs : RStr) : Option RStr :=
  if cs.head? = some c then some cs.tail else none

/-- chrono numeric-year item: an optional explicit sign followed by digits
    (unsigned years read at most 4 digits).  A negative year is outside this
    model's domain and is treated as out of range. -/
def parseYear (cs : RStr) : Option (Nat × RStr) :=
  if cs.head? = some '+' then scanNumber 9 cs.tail
  else if cs.head? = some '-' then none
  else scanNumber 4 cs

/-- The date/time separator of the relaxed RFC 3339 parser: one `' '`, `'t'`
    or `'T'`. -/
def parseSepDT (cs : RStr) : Option RStr :=
  if cs.head? = some ' ' ∨ cs.head? = some 't' ∨ cs.head? = some 'T' then some cs.tail
  else none

/-- Scale a fractional-seconds digit string to nanoseconds: the first nine
    digits count, shorter strings are scaled up (chrono `scan::nanosecond`). -/
def nanoScale (ds : RStr) : Nat := digitsVal (ds.take 9) * 10 ^ (9 - (ds.take 9).length)

/-- chrono `Fixed::Nanosecond` parsing: optional; a dot must be followed by at
    least one digit, and all following digits are consumed. -/
def parseNanoOpt (cs : RStr) : Option (Nat × RStr) :=
  if cs.head? = some '.' then
    (let ds := cs.tail.takeWhile isDigitChar
     if ds = [] then none else some (nanoScale ds, cs.tail.drop ds.length))
  else some (0, cs)

def asciiLower (c : Char) : Char :=
  if 65 ≤ c.toNat ∧ c.toNat ≤ 90 then Char.ofNat (c.toNat + 32) else c

/-- Two digit pairs `HH` and `MM`, separated by any run of colons or
    whitespace (chrono `scan::colon_or_space`); yields offset seconds. -/
def parseHHMM (cs : RStr) : Option (Nat × RStr) :=
  match cs with
  | c1 :: c2 :: rest =>
    if isDigitChar c1 && isDigitChar c2 then
      let hh := (c1.toNat - 48) * 10 + (c2.toNat - 48)
      let rest2 := rest.dropWhile (fun c => c == ':' || isWsChar c)
      match rest2 with
      | d1 :: d2 :: rest3 =>
        if isDigitChar d1 && isDigitChar d2 then
          some (hh * 3600 + ((d1.toNat - 48) * 10 + (d2.toNat - 48)) * 60, rest3)
        else none
      | _ => none
    else none
  | _ => none

/-- chrono `scan::timezone_offset` with zulu allowed: `Z`/`z`, or a sign and
    `HH[:]MM`. -/
def parseOffsetNum (cs : RStr) : Option (Int × RStr) :=
  if cs.head? = some 'Z' ∨ cs.head? = some 'z' then some (0, cs.tail)
  else if cs.head? = some '+' then (parseHHMM cs.tail).map (fun p => ((p.1 : Int), p.2))
  else if cs.head? = some '-' then (parseHHMM cs.tail).map (fun p => (-(p.1 : Int), p.2))
  else none

/-- The timezone of the relaxed RFC 3339 parser: the name `UTC`
    (ASCII-case-insensitive) meaning offset zero, or a numeric offset. -/
def parseTZ (cs : RStr) : Option (Int × RStr) :=
  if (cs.take 3).map asciiLower = ['u', 't', 'c'] then some (0, cs.drop 3)
  else parseOffsetNum cs

/-- Rebuild the time-of-day fields from a second count below 86400
    (chrono `NaiveTime::from_num_seconds_from_midnight`). -/
def setTod (dt : DateTime) (t : Nat) : DateTime :=
  { dt with hour := t / 3600, minute := t % 3600 / 60, second := t % 60 }

/-- The civil day after `dt`'s date; `none` when the year leaves the model's
    domain. -/
def nextDayD (dt : DateTime) : Option DateTime :=
  if dt.day < daysInMonth dt.year dt.month then some { dt with day := dt.day + 1 }
  else if dt.month < 12 then some { dt with month := dt.month + 1, day := 1 }
  else if dt.year < 9999 then some { dt with year := dt.year + 1, month := 1, day := 1 }
  else none

/-- The civil day before `dt`'s date; `none` when the year leaves the model's
    domain. -/
def prevDayD (dt : DateTime) : Option DateTime :=
  if 1 < dt.day then some { dt with day := dt.day - 1 }
  else if 1 < dt.month then
    some { dt with month := dt.month - 1, day := daysInMonth dt.year (dt.month - 1) }
  else if 0 < dt.year then some { dt with year := dt.year - 1, month := 12, day := 31 }
  else none

/-- Subtract a UTC offset (in seconds, magnitude below one day) from a civil
    datetime: chrono's `datetime - offset` when converting a parsed local
    datetime to UTC.  Day carry is at most one in either direction. -/
def subOffset (dt : DateTime) (off : Int) : Option DateTime :=
  let total : Int := ((dt.hour * 3600 + dt.minute * 60 + dt.second : Nat) : Int) - off
  if 0 ≤ total ∧ total < 86400 then some (setTod dt total.toNat)
  else if total < 0 then (prevDayD dt).map (fun d => setTod d (total + 86400).toNat)
  else (nextDayD dt).map (fun d => setTod d (total - 86400).toNat)

/-- chrono `Parsed::to_datetime().with_timezone(&Utc)` on fully determined
    fields: validate the offset (`FixedOffset::east_opt`), the civil fields
    (`NaiveDate::from_ymd_opt` / `NaiveTime::from_hms_nano_opt`, within the
    model's domain), then subtract the offset to reach UTC. -/
def toDateTime (y mo d h mi s nano : Nat) (off : Int) : Option DateTime :=
  if -86400 < off ∧ off < 86400 then
    (let dt : DateTime := ⟨y, mo, d, h, mi, s, nano⟩
     if dt.Valid then subOffset dt off else none)
  else none

/-- chrono `FromStr for DateTime<Utc>` (the relaxed RFC 3339 parser), as used
    by `load_tasks` through `parts[1].parse::<DateTime<Utc>>()`.  All parse
    errors are collapsed to `none`, which is how `load_tasks` consumes them. -/
def dtFromStr (cs : RStr) : Option DateTime := do
  let (y, s1) ← parseYear (trimStart cs)
  let s2 ← expectChar '-' s1
  let (mo, s3) ← scanNumber 2 (trimStart s2)
  let s4 ← expectChar '-' s3
  let (d, s5) ← scanNumber 2 (trimStart s4)
  let s6 ← parseSepDT s5
  let (h, s7) ← scanNumber 2 (trimStart s6)
  let s8 ← expectChar ':' s7
  let (mi, s9) ← scanNumber 2 (trimStart s8)
  let s10 ← expectChar ':' s9
  let (sec, s11) ← scanNumber 2 (trimStart s10)
  let (nano, s12) ← parseNanoOpt s11
  let (off, s13) ← parseTZ (trimStart s12)
  if trimStart s13 = [] then toDateTime y mo d h mi sec nano off else none

/-- chrono `Parsed`: the fields the format items of
    `"%Y-%m-%d %H:%M:%S"` can fill, plus the (never filled) offset. -/
structure Parsed where
  year : Nat
  month : Nat
  day : Nat
  hour : Nat
  minute : Nat
  second : Nat
  offset : Option Int
  deriving DecidableEq, Repr

/-- The numeric fields matched by `StrftimeItems::new("%Y-%m-%d %H:%M:%S")`:
    numeric items skip leading whitespace, literals match exactly, the `' '`
    in the format is a whitespace item, and the whole input must be consumed. -/
def parseFixedFields (cs : RStr) : Option (Nat × Nat × Nat × Nat × Nat × Nat) := do
  let (y, s1) ← parseYear (trimStart cs)
  let s2 ← expectChar '-' s1
  let (mo, s3) ← scanNumber 2 (trimStart s2)
  let s4 ← expectChar '-' s3
  let (d, s5) ← scanNumber 2 (trimStart s4)
  let (h, s7) ← scanNumber 2 (trimStart (trimStart s5))
  let s8 ← expectChar ':' s7
  let (mi, s9) ← scanNumber 2 (trimStart s8)
  let s10 ← expectChar ':' s9
  let (sec, s11) ← scanNumber 2 (trimStart s10)
  if s11 = [] then some (y, mo, d, h, mi, sec) else none

/-- chrono `format::parse` with `StrftimeItems::new("%Y-%m-%d %H:%M:%S")`
    filling a `Parsed` record: the format has no offset item, so the parsed
    record's offset is `none`. -/
def parseFixedFmt (cs : RStr) : Option Parsed :=
  (parseFixedFields cs).map
    (fun v => ⟨v.1, v.2.1, v.2.2.1, v.2.2.2.1, v.2.2.2.2.1, v.2.2.2.2.2, none⟩)

/-- chrono `Parsed::to_datetime`: requires an offset; without one the result
    is the `NotEnough` error.  The nanosecond field defaults to zero. -/
def Parsed.to_datetime (p : Parsed) : Option DateTime :=
  match p.offset with
  | some off => toDateTime p.year p.month p.day p.hour p.minute p.second 0 off
  | none => none

/-- chrono `DateTime::parse_from_str(s, "%Y-%m-%d %H:%M:%S")` followed by
    `.with_timezone(&Utc)`, as called by `add_task`. -/
def dtParseFromStrFixed (cs : RStr) : Option DateTime :=
  (parseFixedFmt cs).bind Parsed.to_datetime

/-- One iteration of `add_task`'s due-date retry loop, for an already-trimmed
    description and one raw due-date input line.  `some` is the new task list
    (the loop breaks); `none` means the parse failed, an error is printed and
    the loop re-prompts without adding a task. -/
def addTaskIter (description : RStr) (dueInputRaw : RStr) (tasks : List Task) :
    Option (List Task) :=
  let input := rustTrim dueInputRaw
  if input = [] then some (tasks ++ [Task.new description none])
  else
    match dtParseFromStrFixed input with
    | some date => some (tasks ++ [Task.new description (some date)])
    | none => none

/-- `add_task` up to the first due-date prompt answer: the raw description
    line is trimmed before the retry loop starts. -/
def add_task (descriptionRaw : RStr) (dueInputRaw : RStr) (tasks : List Task) :
    Option (List Task) :=
  addTaskIter (rustTrim descriptionRaw) dueInputRaw tasks

/-- The line `save_tasks` writes for one task, without the newline:
    `description,display(due)` with a due date, bare `description` without. -/
def saveLineBody (t : Task) : RStr :=
  t.description ++ (match t.due_date with | some d => ',' :: displayDT d | none => [])

/-- `save_tasks`: the full contents written to `tasks.csv`
    (each task's line followed by `'\n'` from `writeln!`). -/
def save_tasks (tasks : List Task) : RStr :=
  (tasks.map (fun t => saveLineBody t ++ ['\n'])).flatten

/-- The per-line body of `load_tasks`'s loop: split on `','`; exactly two
    fields make a task whose due date is the parse result downgraded to
    `none` on error; any other field count adds nothing. -/
def parseLine (line : RStr) : Option Task :=
  match rustSplit ',' line with
  | [a, b] => some (Task.new a (dtFromStr b))
  | _ => none

/-- `load_tasks`: `file` is the contents of `tasks.csv`, or `none` when the
    open failed (the function body is then skipped and `Ok(())` returned).
    Tasks are pushed onto the caller's list in file order. -/
def load_tasks (file : Option RStr) (tasks : List Task) : List Task :=
  match file with
  | none => tasks
  | some content =>
    (linesOf content).foldl
      (fun acc line => match parseLine line with | some t => acc ++ [t] | none => acc)
      tasks

/-- The tasks produced from a file's contents alone. -/
def loadString (content : RStr) : List Task := (linesOf content).filterMap parseLine

/-- The line `export_tasks_to_csv` writes for one task, without the newline:
    always two fields, the second empty when there is no due date. -/
def exportLineBody (t : Task) : RStr :=
  t.description ++ ',' :: (match t.due_date with | some d => displayDT d | none => [])

/-- `export_tasks_to_csv`: the full contents written to `exported_tasks.csv`:
    the literal header line, then one line per task. -/
def export_tasks_to_csv (tasks : List Task) : RStr :=
  ("Description,Due Date".toList ++ ['\n']) ++
    (tasks.map (fun t => exportLineBody t ++ ['\n'])).flatten

/-- Decimal rendering of a positive number without padding (Rust `{}` on an
    integer), for the task indices printed by `view_tasks`. -/
def natDigits (n : Nat) : RStr :=
  if _h : n < 10 then [digitChar n] else natDigits (n / 10) ++ [digitChar (n % 10)]

/-- chrono `Display` for `FixedOffset`: `±HH:MM`. -/
def offsetDisplay (off : Int) : RStr :=
  (if off < 0 then ['-'] else ['+']) ++
    (padDigits 2 (off.natAbs / 3600) ++ ':' :: padDigits 2 (off.natAbs % 3600 / 60))

/-- chrono `Display` of `due_date.with_timezone(&Local)`: the civil fields
    shifted by the ambient local offset (passed as a parameter), then the
    offset itself.  Out-of-domain shifts render nothing. -/
def displayLocal (dt : DateTime) (localOff : Int) : RStr :=
  match subOffset dt (-localOff) with
  | some l => displayNaive l ++ ' ' :: offsetDisplay localOff
  | none => []

/-- The console text `view_tasks` prints for task number `i + 1`. -/
def viewChunk (localOff : Int) (i : Nat) (t : Task) : RStr :=
  ("Task ".toList ++ natDigits (i + 1) ++ ": ".toList ++ t.description ++ ['\n']) ++
    (match t.due_date with
     | some d => "Due date: ".toList ++ displayLocal d localOff ++ ['\n']
     | none => "No due date".toList ++ ['\n'])

/-- `view_tasks`: the console output for the whole list. -/
def view_tasks (localOff : Int) (tasks : List Task) : RStr :=
  (tasks.enum.map (fun p => viewChunk localOff p.1 p.2)).flatten

/-- The program state the three read-only operations touch: the task list
    (which they borrow immutably), the console, and the two files. -/
structure AppState where
  tasks : List Task
  stdout : RStr
  storeFile : Option RStr
  exportFile : Option RStr
  deriving DecidableEq

/-- `view_tasks(&tasks)` as a state transformer. -/
def viewOp (localOff : Int) (s : AppState) : AppState :=
  { s with stdout := s.stdout ++ view_tasks localOff s.tasks }

/-- `save_tasks(&tasks)` as a state transformer (truncating write). -/
def saveOp (s : AppState) : AppState :=
  { s with storeFile := some (save_tasks s.tasks) }

/-- `export_tasks_to_csv(&tasks)` as a state transformer (truncating write
    plus the confirmation notice). -/
def exportOp (s : AppState) : AppState :=
  { s with
    exportFile := some (export_tasks_to_csv s.tasks),
    stdout := s.stdout ++ "Tasks have been exported to exported_tasks.csv".toList ++ ['\n'] }

/-! ### Character and digit facts -/

theorem isDigitChar_iff {c : Char} : isDigitChar c = true ↔ 48 ≤ c.toNat ∧ c.toNat ≤ 57 := by
  simp [isDigitChar, Bool.and_eq_true, decide_eq_true_eq]

theorem not_ws_of_digit {c : Char} (h : isDigitChar c = true) : isWsChar c = false := by
  rw [isDigitChar_iff] at h
  rw [Bool.eq_false_iff]
  intro hw
  simp only [isWsChar, Bool.or_eq_true, Bool.and_eq_true, decide_eq_true_eq, beq_iff_eq] at hw
  omega

theorem digit_ne {c : Char} (x : Char) (h : isDigitChar c = true)
    (hx : x.toNat < 48 ∨ 57 < x.toNat) : c ≠ x := by
  rw [isDigitChar_iff] at h
  intro he
  subst he
  omega

theorem digitChar_toNat {n : Nat} (h : n < 10) : (digitChar n).toNat = 48 + n := by
  interval_cases n <;> decide

theorem isDigit_digitChar {n : Nat} (h : n < 10) : isDigitChar (digitChar n) = true := by
  interval_cases n <;> decide

/-! ### padDigits -/

theorem padDigits_length (k n : Nat) : (padDigits k n).length = k := by
  induction k generalizing n with
  | zero => rfl
  | succ k ih => simp [padDigits, ih]

theorem padDigits_digit {k n : Nat} {c : Char} (h : c ∈ padDigits k n) :
    isDigitChar c = true := by
  induction k generalizing n with
  | zero => simp [padDigits] at h
  | succ k ih =>
    simp only [padDigits, List.mem_append, List.mem_singleton] at h
    rcases h with h | h
    · exact ih h
    · subst h
      exact isDigit_digitChar (Nat.mod_lt _ (by omega))

theorem padDigits_ne_nil {k n : Nat} (hk : 0 < k) : padDigits k n ≠ [] := by
  intro h0
  have h1 := padDigits_length k n
  rw [h0] at h1
  simp at h1
  omega

theorem digitsVal_append_one (A : RStr) (c : Char) :
    digitsVal (A ++ [c]) = digitsVal A * 10 + (c.toNat - 48) := by
  simp [digitsVal, List.foldl_append]

theorem digitsVal_padDigits {k n : Nat} (h : n < 10 ^ k) : digitsVal (padDigits k n) = n := by
  induction k generalizing n with
  | zero =>
    simp only [pow_zero] at h
    have h0 : n = 0 := by omega
    simp [padDigits, digitsVal, h0]
  | succ k ih =>
    have h10 : n / 10 < 10 ^ k := by
      rw [Nat.div_lt_iff_lt_mul (by omega)]
      calc n < 10 ^ (k + 1) := h
        _ = 10 ^ k * 10 := by ring
    rw [padDigits, digitsVal_append_one, ih h10, digitChar_toNat (Nat.mod_lt _ (by omega))]
    omega

/-! ### takeWhile and scanNumber -/

theorem takeWhile_append_all {p : Char → Bool} {l : RStr} (r : RStr)
    (h : ∀ c ∈ l, p c = true) : (l ++ r).takeWhile p = l ++ r.takeWhile p := by
  induction l with
  | nil => rfl
  | cons c l ih =>
    have hc : p c = true := h c (List.mem_cons_self c l)
    simp only [List.cons_append, List.takeWhile_cons, hc, if_true]
    rw [ih (fun d hd => h d (List.mem_cons_of_mem c hd))]

theorem takeWhile_nil_of_head {p : Char → Bool} {r : RStr}
    (h : ∀ c, r.head? = some c → p c = false) : r.takeWhile p = [] := by
  cases r with
  | nil => rfl
  | cons c rs => simp [List.takeWhile_cons, h c rfl]

theorem scanNumber_exact {maxD k n : Nat} {r : RStr}
    (hk : 0 < k) (hkm : k ≤ maxD) (hn : n < 10 ^ k)
    (hr : ∀ c, r.head? = some c → isDigitChar c = false) :
    scanNumber maxD (padDigits k n ++ r) = some (n, r) := by
  have hlen : (padDigits k n).length = k := padDigits_length k n
  have htake : (padDigits k n ++ r).take maxD = padDigits k n ++ r.take (maxD - k) := by
    rw [List.take_append_eq_append_take, List.take_of_length_le (by omega), hlen]
  have hrt : (r.take (maxD - k)).takeWhile isDigitChar = [] := by
    apply takeWhile_nil_of_head
    intro c hc
    apply hr
    cases r with
    | nil => simp at hc
    | cons a rs =>
      cases hmk : maxD - k with
      | zero => rw [hmk] at hc; simp at hc
      | succ m =>
        rw [hmk] at hc
        simp only [List.take_succ_cons, List.head?_cons, Option.some.injEq] at hc ⊢
        exact hc
  unfold scanNumber
  simp only [htake, takeWhile_append_all _ (fun c hc => padDigits_digit hc), hrt,
    List.append_nil]
  rw [if_neg (padDigits_ne_nil hk), digitsVal_padDigits hn, List.drop_left]

/-! ### trimStart -/

theorem trimStart_of_head {l : RStr} {c : Char} (h : l.head? = some c)
    (hw : isWsChar c = false) : trimStart l = l := by
  cases l with
  | nil => rfl
  | cons a l =>
    simp only [List.head?_cons, Option.some.injEq] at h
    subst h
    simp [trimStart, List.dropWhile_cons, hw]

theorem trimStart_padDigits (k n : Nat) (r : RStr) (hk : 0 < k) :
    trimStart (padDigits k n ++ r) = padDigits k n ++ r := by
  obtain ⟨c, cs, hc⟩ := List.exists_cons_of_ne_nil (padDigits_ne_nil (n := n) hk)
  have hd : isDigitChar c = true := padDigits_digit (by rw [hc]; exact List.mem_cons_self c cs)
  rw [hc, List.cons_append]
  exact trimStart_of_head rfl (not_ws_of_digit hd)

theorem trimStart_cons_ws {c : Char} {l : RStr} (h : isWsChar c = true) :
    trimStart (c :: l) = trimStart l := by
  simp [trimStart, List.dropWhile_cons, h]

/-! ### The individual steps of the relaxed RFC 3339 parser -/

theorem head_not_digit (x : Char) {r : RStr} (hx : isDigitChar x = false) :
    ∀ c, (x :: r).head? = some c → isDigitChar c = false := by
  intro c hc
  simp only [List.head?_cons, Option.some.injEq] at hc
  subst hc
  exact hx

theorem parseYear_digits {y : Nat} {r : RStr} (hy : y < 10000)
    (hr : ∀ c, r.head? = some c → isDigitChar c = false) :
    parseYear (padDigits 4 y ++ r) = some (y, r) := by
  obtain ⟨c, cs, hc⟩ := List.exists_cons_of_ne_nil (padDigits_ne_nil (n := y) (by omega : 0 < 4))
  have hd : isDigitChar c = true := padDigits_digit (by rw [hc]; exact List.mem_cons_self c cs)
  have hh : (padDigits 4 y ++ r).head? = some c := by rw [hc]; rfl
  have h1 : ¬((padDigits 4 y ++ r).head? = some '+') := by
    rw [hh]
    simp only [Option.some.injEq]
    exact digit_ne '+' hd (by decide)
  have h2 : ¬((padDigits 4 y ++ r).head? = some '-') := by
    rw [hh]
    simp only [Option.some.injEq]
    exact digit_ne '-' hd (by decide)
  unfold parseYear
  rw [if_neg h1, if_neg h2]
  have e4 : (10 : Nat) ^ 4 = 10000 := by norm_num
  exact scanNumber_exact (by omega) (by omega) (by omega) hr

theorem scanTwo (v : Nat) (hv : v ≤ 99) {r : RStr}
    (hr : ∀ c, r.head? = some c → isDigitChar c = false) :
    scanNumber 2 (trimStart (padDigits 2 v ++ r)) = some (v, r) := by
  rw [trimStart_padDigits 2 v r (by omega)]
  have e2 : (10 : Nat) ^ 2 = 100 := by norm_num
  exact scanNumber_exact (by omega) (by omega) (by omega) hr

theorem expectChar_self (c : Char) (r : RStr) : expectChar c (c :: r) = some r := by
  simp [expectChar]

theorem parseSepDT_space (r : RStr) : parseSepDT (' ' :: r) = some r := by
  simp [parseSepDT]

theorem parseNanoOpt_no_frac {r : RStr} (h : ¬(r.head? = some '.')) :
    parseNanoOpt r = some (0, r) := by
  unfold parseNanoOpt
  rw [if_neg h]

theorem parseNanoOpt_digits (k q : Nat) (hk : 0 < k) (hk9 : k ≤ 9) (hq : q < 10 ^ k)
    {r : RStr} (hr : ∀ c, r.head? = some c → isDigitChar c = false) :
    parseNanoOpt ('.' :: (padDigits k q ++ r)) = some (q * 10 ^ (9 - k), r) := by
  have hlen : (padDigits k q).length = k := padDigits_length k q
  unfold parseNanoOpt
  simp only [List.head?_cons]
  rw [if_pos trivial]
  simp only [List.tail_cons]
  rw [takeWhile_append_all r (fun c hc => padDigits_digit hc), takeWhile_nil_of_head hr,
    List.append_nil]
  rw [if_neg (padDigits_ne_nil hk), List.drop_left]
  have htk : (padDigits k q).take 9 = padDigits k q := List.take_of_length_le (by omega)
  unfold nanoScale
  rw [htk, digitsVal_padDigits hq, hlen]

theorem parseNanoOpt_fracOf {n : Nat} (hn : n ≤ 999999999) {r : RStr}
    (hr : ∀ c, r.head? = some c → isDigitChar c = false)
    (hdot : ¬(r.head? = some '.')) :
    parseNanoOpt (fracOf n ++ r) = some (n, r) := by
  unfold fracOf
  by_cases h0 : n = 0
  · subst h0
    simp only [if_pos rfl, List.nil_append]
    exact parseNanoOpt_no_frac hdot
  · rw [if_neg h0]
    by_cases h6 : n % 1000000 = 0
    · rw [if_pos h6]
      have e3 : (10 : Nat) ^ 3 = 1000 := by norm_num
      have hq : n / 1000000 < 10 ^ 3 := by omega
      rw [List.cons_append, parseNanoOpt_digits 3 (n / 1000000) (by omega) (by omega) hq hr]
      have e6 : (10 : Nat) ^ (9 - 3) = 1000000 := by norm_num
      simp only [Option.some.injEq, Prod.mk.injEq, and_true, e6]
      omega
    · rw [if_neg h6]
      by_cases h3 : n % 1000 = 0
      · rw [if_pos h3]
        have e6 : (10 : Nat) ^ 6 = 1000000 := by norm_num
        have hq : n / 1000 < 10 ^ 6 := by omega
        rw [List.cons_append, parseNanoOpt_digits 6 (n / 1000) (by omega) (by omega) hq hr]
        have e3 : (10 : Nat) ^ (9 - 6) = 1000 := by norm_num
        simp only [Option.some.injEq, Prod.mk.injEq, and_true, e3]
        omega
      · rw [if_neg h3]
        have e9 : (10 : Nat) ^ 9 = 1000000000 := by norm_num
        have hq : n < 10 ^ 9 := by omega
        rw [List.cons_append, parseNanoOpt_digits 9 n (by omega) (by omega) hq hr]
        have e0 : (10 : Nat) ^ (9 - 9) = 1 := by norm_num
        simp only [Option.some.injEq, Prod.mk.injEq, and_true, e0]
        omega

/-! ### Offset subtraction at offset zero, and assembling a datetime -/

theorem daysInMonth_le (y m : Nat) : daysInMonth y m ≤ 31 := by
  unfold daysInMonth
  split_ifs <;> omega

theorem subOffset_zero {dt : DateTime} (h : dt.Valid) : subOffset dt 0 = some dt := by
  obtain ⟨y, mo, d, hh, mi, s, na⟩ := dt
  unfold DateTime.Valid at h
  simp only at h
  obtain ⟨h1, h2, h3, h4, h5, h6, h7, h8, h9⟩ := h
  unfold subOffset
  simp only
  rw [if_pos (by constructor <;> omega)]
  have ht : ((((hh * 3600 + mi * 60 + s : Nat) : Int) - 0)).toNat = hh * 3600 + mi * 60 + s := by
    omega
  rw [ht]
  simp only [setTod, Option.some.injEq, DateTime.mk.injEq]
  refine ⟨trivial, trivial, trivial, ?_, ?_, ?_, trivial⟩ <;> omega

theorem toDateTime_zero {dt : DateTime} (h : dt.Valid) :
    toDateTime dt.year dt.month dt.day dt.hour dt.minute dt.second dt.nano 0 = some dt := by
  unfold toDateTime
  rw [if_pos (by constructor <;> decide)]
  simp only
  have he : (⟨dt.year, dt.month, dt.day, dt.hour, dt.minute, dt.second, dt.nano⟩ : DateTime)
      = dt := rfl
  rw [he, if_pos h]
  exact subOffset_zero h

/-! ### The round trip: parsing the `Display` output recovers the instant -/

theorem dtFromStr_display_generic (y mo d hh mi s na : Nat) (hy : y ≤ 9999) (hmo : mo ≤ 99)
    (hd : d ≤ 99) (hhh : hh ≤ 99) (hmi : mi ≤ 99) (hs : s ≤ 99) (hn : na ≤ 999999999) :
    dtFromStr (padDigits 4 y ++ '-' :: (padDigits 2 mo ++ '-' :: (padDigits 2 d ++ ' ' ::
      (padDigits 2 hh ++ ':' :: (padDigits 2 mi ++ ':' :: (padDigits 2 s ++
        (fracOf na ++ ' ' :: ['U', 'T', 'C']))))))) = toDateTime y mo d hh mi s na 0 := by
  unfold dtFromStr
  rw [trimStart_padDigits 4 y _ (by omega),
    parseYear_digits (by omega) (head_not_digit '-' (by decide))]
  simp only [Option.bind_eq_bind, Option.some_bind]
  rw [expectChar_self, Option.some_bind,
    scanTwo mo hmo (head_not_digit '-' (by decide)), Option.some_bind,
    expectChar_self, Option.some_bind,
    scanTwo d hd (head_not_digit ' ' (by decide)), Option.some_bind,
    parseSepDT_space, Option.some_bind,
    scanTwo hh hhh (head_not_digit ':' (by decide)), Option.some_bind,
    expectChar_self, Option.some_bind,
    scanTwo mi hmi (head_not_digit ':' (by decide)), Option.some_bind,
    expectChar_self, Option.some_bind]
  have hfr : ∀ c, (fracOf na ++ ' ' :: ['U', 'T', 'C']).head? = some c →
      isDigitChar c = false := by
    intro c hc
    unfold fracOf at hc
    split_ifs at hc <;>
      simp only [List.nil_append, List.cons_append, List.head?_cons,
        Option.some.injEq] at hc <;>
      subst hc <;> decide
  rw [scanTwo s hs hfr, Option.some_bind]
  have hut : ∀ c, (' ' :: ['U', 'T', 'C']).head? = some c → isDigitChar c = false := by
    intro c hc
    simp only [List.head?_cons, Option.some.injEq] at hc
    subst hc
    decide
  rw [parseNanoOpt_fracOf hn hut (by decide), Option.some_bind]
  have htz : parseTZ (trimStart (' ' :: ['U', 'T', 'C'])) = some ((0 : Int), []) := by decide
  rw [htz, Option.some_bind]
  have h0 : trimStart ([] : RStr) = [] := rfl
  rw [if_pos h0]

theorem dtFromStr_displayDT {dt : DateTime} (h : dt.Valid) :
    dtFromStr (displayDT dt) = some dt := by
  have hdisp : displayDT dt =
      padDigits 4 dt.year ++ '-' :: (padDigits 2 dt.month ++ '-' :: (padDigits 2 dt.day ++ ' ' ::
        (padDigits 2 dt.hour ++ ':' :: (padDigits 2 dt.minute ++ ':' :: (padDigits 2 dt.second ++
          (fracOf dt.nano ++ ' ' :: ['U', 'T', 'C'])))))) := by
    simp [displayDT, displayNaive, List.append_assoc]
  have hv := h
  unfold DateTime.Valid at hv
  obtain ⟨h1, h2, h3, h4, h5, h6, h7, h8, h9⟩ := hv
  have hdml := daysInMonth_le dt.year dt.month
  rw [hdisp, dtFromStr_display_generic dt.year dt.month dt.day dt.hour dt.minute dt.second
    dt.nano h5 (by omega) (by omega) (by omega) (by omega) (by omega) h9]
  exact toDateTime_zero h

/-! ### rustSplit -/

theorem rustSplit_nil (sep : Char) : rustSplit sep [] = [[]] := rfl

theorem rustSplit_cons (sep c : Char) (cs : RStr) :
    rustSplit sep (c :: cs) =
      if c = sep then [] :: rustSplit sep cs
      else (rustSplit sep cs).modifyHead (c :: ·) := rfl

theorem rustSplit_ne_nil (sep : Char) (cs : RStr) : rustSplit sep cs ≠ [] := by
  induction cs with
  | nil => simp [rustSplit_nil]
  | cons c cs ih =>
    rw [rustSplit_cons]
    split_ifs
    · simp
    · cases h : rustSplit sep cs with
      | nil => exact absurd h ih
      | cons a l => simp [List.modifyHead_cons]

theorem rustSplit_not_mem {sep : Char} {l : RStr} (h : sep ∉ l) : rustSplit sep l = [l] := by
  induction l with
  | nil => rfl
  | cons c cs ih =>
    simp only [List.mem_cons, not_or] at h
    rw [rustSplit_cons, if_neg (fun he => h.1 he.symm), ih h.2]
    rfl

theorem rustSplit_append_cons {sep : Char} {l : RStr} (h : sep ∉ l) (r : RStr) :
    rustSplit sep (l ++ sep :: r) = l :: rustSplit sep r := by
  induction l with
  | nil =>
    simp only [List.nil_append]
    rw [rustSplit_cons, if_pos rfl]
  | cons c cs ih =>
    simp only [List.mem_cons, not_or] at h
    simp only [List.cons_append]
    rw [rustSplit_cons, if_neg (fun he => h.1 he.symm), ih h.2]
    rfl

theorem mem_of_mem_rustSplit {sep c : Char} :
    ∀ (cs : RStr) (x : RStr), x ∈ rustSplit sep cs → c ∈ x → c ∈ cs := by
  intro cs
  induction cs with
  | nil =>
    intro x hx hc
    simp [rustSplit_nil] at hx
    subst hx
    simp at hc
  | cons a l ih =>
    intro x hx hc
    rw [rustSplit_cons] at hx
    by_cases ha : a = sep
    · rw [if_pos ha] at hx
      rcases List.mem_cons.mp hx with h1 | h1
      · subst h1; simp at hc
      · exact List.mem_cons_of_mem a (ih x h1 hc)
    · rw [if_neg ha] at hx
      cases hsp : rustSplit sep l with
      | nil => exact absurd hsp (rustSplit_ne_nil sep l)
      | cons y ys =>
        rw [hsp] at hx
        simp only [List.modifyHead_cons] at hx
        rcases List.mem_cons.mp hx with h1 | h1
        · subst h1
          rcases List.mem_cons.mp hc with h2 | h2
          · subst h2; exact List.mem_cons_self c l
          · exact List.mem_cons_of_mem a (ih y (by rw [hsp]; exact List.mem_cons_self y ys) h2)
        · exact List.mem_cons_of_mem a (ih x (by rw [hsp]; exact List.mem_cons_of_mem y h1) hc)

/-! ### linesAux -/

theorem linesAux_nil (cur : RStr) : linesAux cur [] = if cur = [] then [] else [cur] := rfl

theorem linesAux_cons (cur : RStr) (c : Char) (cs : RStr) :
    linesAux cur (c :: cs) =
      if c = '\n' then stripCR cur :: linesAux [] cs else linesAux (cur ++ [c]) cs := rfl

theorem linesAux_line (l : RStr) :
    '\n' ∉ l → ∀ (cur rest : RStr),
      linesAux cur (l ++ '\n' :: rest) = stripCR (cur ++ l) :: linesAux [] rest := by
  induction l with
  | nil =>
    intro _ cur rest
    simp only [List.nil_append, List.append_nil]
    rw [linesAux_cons, if_pos rfl]
  | cons c cs ih =>
    intro hl cur rest
    simp only [List.mem_cons, not_or] at hl
    simp only [List.cons_append]
    rw [linesAux_cons, if_neg (fun he => hl.1 he.symm), ih hl.2 (cur ++ [c]) rest]
    simp [List.append_assoc]

theorem linesAux_append : ∀ (A : RStr), A.getLast? = some '\n' →
    ∀ (cur B : RStr), linesAux cur (A ++ B) = linesAux cur A ++ linesAux [] B := by
  intro A
  induction A with
  | nil => intro h; simp at h
  | cons c cs ih =>
    intro h cur B
    cases cs with
    | nil =>
      simp only [List.getLast?_singleton, Option.some.injEq] at h
      subst h
      simp [linesAux_cons, linesAux_nil]
    | cons c2 cs2 =>
      have h2 : (c2 :: cs2).getLast? = some '\n' := by
        rw [List.getLast?_cons_cons] at h
        exact h
      by_cases hc : c = '\n'
      · subst hc
        simp only [List.cons_append]
        conv_lhs => rw [linesAux_cons]
        conv_rhs => rw [linesAux_cons]
        rw [if_pos rfl, if_pos rfl]
        have ih2 := ih h2 [] B
        simp only [List.cons_append] at ih2
        rw [ih2]
        simp
      · simp only [List.cons_append]
        conv_lhs => rw [linesAux_cons]
        conv_rhs => rw [linesAux_cons]
        rw [if_neg hc, if_neg hc]
        exact ih h2 (cur ++ [c]) B

theorem mem_of_stripCR {c : Char} {l : RStr} (h : c ∈ stripCR l) : c ∈ l := by
  unfold stripCR at h
  split_ifs at h
  · exact (List.dropLast_sublist l).mem h
  · exact h

theorem mem_of_mem_linesAux {c : Char} :
    ∀ (cs cur : RStr) (x : RStr), x ∈ linesAux cur cs → c ∈ x → c ∈ cur ∨ c ∈ cs := by
  intro cs
  induction cs with
  | nil =>
    intro cur x hx hc
    rw [linesAux_nil] at hx
    split_ifs at hx
    · simp at hx
    · simp only [List.mem_singleton] at hx
      subst hx
      exact Or.inl hc
  | cons a l ih =>
    intro cur x hx hc
    rw [linesAux_cons] at hx
    split_ifs at hx with hnl
    · rcases List.mem_cons.mp hx with h1 | h1
      · subst h1
        exact Or.inl (mem_of_stripCR hc)
      · rcases ih [] x h1 hc with h2 | h2
        · simp at h2
        · exact Or.inr (List.mem_cons_of_mem a h2)
    · rcases ih (cur ++ [a]) x hx hc with h2 | h2
      · rcases List.mem_append.mp h2 with h3 | h3
        · exact Or.inl h3
        · simp only [List.mem_singleton] at h3
          subst h3
          exact Or.inr (List.mem_cons_self c l)
      · exact Or.inr (List.mem_cons_of_mem a h2)

theorem stripCR_of_getLast {l : RStr} (h : ¬(l.getLast? = some '\r')) : stripCR l = l := by
  unfold stripCR
  rw [if_neg h]

/-! ### Characters occurring in a displayed timestamp -/

theorem mem_fracOf {n : Nat} {c : Char} (h : c ∈ fracOf n) : isDigitChar c = true ∨ c = '.' := by
  unfold fracOf at h
  split_ifs at h
  · simp at h
  all_goals
    rcases List.mem_cons.mp h with h1 | h1
  · exact Or.inr h1
  · exact Or.inl (padDigits_digit h1)
  · exact Or.inr h1
  · exact Or.inl (padDigits_digit h1)
  · exact Or.inr h1
  · exact Or.inl (padDigits_digit h1)

theorem not_mem_displayDT {dt : DateTime} (x : Char) (hx : isDigitChar x = false)
    (hlit : ¬ x ∈ (['-', ':', ' ', '.', 'U', 'T', 'C'] : RStr)) : x ∉ displayDT dt := by
  intro h
  simp only [List.mem_cons, List.not_mem_nil, or_false, not_or] at hlit
  obtain ⟨n1, n2, n3, n4, n5, n6, n7⟩ := hlit
  unfold displayDT displayNaive at h
  simp only [List.mem_append, List.mem_cons, List.not_mem_nil, or_false] at h
  rcases h with ((h | h | h | h | h | h | h | h | h | h | h | h) | h | h | h | h) <;>
    first
      | exact absurd (padDigits_digit h) (by simp [hx])
      | exact n1 h
      | exact n2 h
      | exact n3 h
      | exact n5 h
      | exact n6 h
      | exact n7 h
      | (rcases mem_fracOf h with hd | hd
         · exact absurd hd (by simp [hx])
         · exact n4 hd)

theorem displayDT_ne_nil (dt : DateTime) : displayDT dt ≠ [] := by
  simp [displayDT]

theorem displayDT_getLast (dt : DateTime) : (displayDT dt).getLast? = some 'C' := by
  unfold displayDT
  rw [List.getLast?_append_of_ne_nil _ (by simp)]
  rfl

/-! ### Structure of the saved and loaded data -/

theorem save_tasks_cons (t : Task) (ts : List Task) :
    save_tasks (t :: ts) = (saveLineBody t ++ ['\n']) ++ save_tasks ts := by
  simp [save_tasks]

theorem save_tasks_append (A B : List Task) :
    save_tasks (A ++ B) = save_tasks A ++ save_tasks B := by
  simp [save_tasks]

theorem save_getLast {ts : List Task} (h : ts ≠ []) : (save_tasks ts).getLast? = some '\n' := by
  induction ts with
  | nil => exact absurd rfl h
  | cons t ts ih =>
    rw [save_tasks_cons]
    by_cases hts : ts = []
    · subst hts
      show ((saveLineBody t ++ ['\n']) ++ save_tasks []).getLast? = some '\n'
      rw [show save_tasks [] = [] from rfl, List.append_nil, List.getLast?_concat]
    · have hne : save_tasks ts ≠ [] := by
        intro h0
        have h1 := ih hts
        rw [h0] at h1
        simp at h1
      rw [List.getLast?_append_of_ne_nil _ hne]
      exact ih hts

theorem load_fold (ls : List RStr) (acc : List Task) :
    ls.foldl (fun acc line => match parseLine line with | some t => acc ++ [t] | none => acc) acc
      = acc ++ ls.filterMap parseLine := by
  induction ls generalizing acc with
  | nil => simp
  | cons l ls ih =>
    simp only [List.foldl_cons, List.filterMap_cons]
    cases hp : parseLine l with
    | none => simp only [hp]; rw [ih]
    | some t => simp only [hp]; rw [ih]; simp [List.append_assoc]

theorem load_tasks_some (c : RStr) (ts : List Task) :
    load_tasks (some c) ts = ts ++ loadString c := by
  unfold load_tasks loadString
  exact load_fold _ _

theorem parseLine_no_comma {l : RStr} (h : ',' ∉ l) : parseLine l = none := by
  unfold parseLine
  rw [rustSplit_not_mem h]

theorem parseLine_two {a b l : RStr} (h : rustSplit ',' l = [a, b]) :
    parseLine l = some (Task.new a (dtFromStr b)) := by
  unfold parseLine
  rw [h]

theorem parseLine_len_ne_two {l : RStr} (h : (rustSplit ',' l).length ≠ 2) :
    parseLine l = none := by
  unfold parseLine
  cases hs : rustSplit ',' l with
  | nil => rfl
  | cons a t =>
    cases t with
    | nil => rfl
    | cons b t2 =>
      cases t2 with
      | nil => rw [hs] at h; simp at h
      | cons u t3 => rfl

theorem comma_not_mem_displayDT (dt : DateTime) : ',' ∉ displayDT dt :=
  not_mem_displayDT ',' (by decide) (by decide)

theorem newline_not_mem_displayDT (dt : DateTime) : '\n' ∉ displayDT dt :=
  not_mem_displayDT '\n' (by decide) (by decide)

theorem loadString_save : ∀ (ts : List Task), (∀ t ∈ ts, dueValid t.due_date) →
    (∀ t ∈ ts, ¬ ',' ∈ t.description ∧ ¬ '\n' ∈ t.description) →
    loadString (save_tasks ts) = ts := by
  intro ts
  induction ts with
  | nil => intro _ _; rfl
  | cons t ts ih =>
    intro hdue hdesc
    have hv := hdue t (List.mem_cons_self t ts)
    obtain ⟨d, hdd, hdv⟩ : ∃ d, t.due_date = some d ∧ d.Valid := by
      cases ho : t.due_date with
      | none => rw [ho] at hv; exact hv.elim
      | some d => rw [ho] at hv; exact ⟨d, rfl, hv⟩
    have hchunk : save_tasks (t :: ts) =
        (t.description ++ ',' :: displayDT d) ++ '\n' :: save_tasks ts := by
      rw [save_tasks_cons]
      unfold saveLineBody
      rw [hdd]
      simp [List.append_assoc]
    have hnl : '\n' ∉ t.description ++ ',' :: displayDT d := by
      intro hm
      rcases List.mem_append.mp hm with h1 | h1
      · exact (hdesc t (List.mem_cons_self t ts)).2 h1
      · rcases List.mem_cons.mp h1 with h2 | h2
        · exact absurd h2 (by decide)
        · exact newline_not_mem_displayDT d h2
    have hlast : (t.description ++ ',' :: displayDT d).getLast? = some 'C' := by
      rw [List.getLast?_append_of_ne_nil _ (by simp),
        show ',' :: displayDT d = [','] ++ displayDT d from rfl,
        List.getLast?_append_of_ne_nil _ (displayDT_ne_nil d), displayDT_getLast]
    have hsplit : rustSplit ',' (t.description ++ ',' :: displayDT d) =
        [t.description, displayDT d] := by
      rw [rustSplit_append_cons (hdesc t (List.mem_cons_self t ts)).1,
        rustSplit_not_mem (comma_not_mem_displayDT d)]
    have ht : Task.new t.description (some d) = t := by
      obtain ⟨desc, dd⟩ := t
      simp only [Task.new, Task.mk.injEq]
      exact ⟨trivial, hdd.symm⟩
    rw [hchunk]
    unfold loadString linesOf
    rw [linesAux_line _ hnl [] _, List.nil_append,
      stripCR_of_getLast (by rw [hlast]; decide), List.filterMap_cons,
      parseLine_two hsplit, dtFromStr_displayDT hdv, ht]
    have hrest := ih (fun u hu => hdue u (List.mem_cons_of_mem t hu))
      (fun u hu => hdesc u (List.mem_cons_of_mem t hu))
    unfold loadString linesOf at hrest
    rw [hrest]

/-! ### Decomposing a load over concatenated saved chunks -/

theorem loadString_append_term {A : RStr} (h : A = [] ∨ A.getLast? = some '\n') (B : RStr) :
    loadString (A ++ B) = loadString A ++ loadString B := by
  rcases h with h | h
  · subst h
    simp [loadString, linesOf, linesAux_nil]
  · unfold loadString linesOf
    rw [linesAux_append A h [] B, List.filterMap_append]

theorem loadString_undated {desc : RStr} (h : ',' ∉ desc) :
    loadString (desc ++ ['\n']) = [] := by
  unfold loadString
  rw [List.filterMap_eq_nil_iff]
  intro line hline
  apply parseLine_no_comma
  intro hcm
  rcases mem_of_mem_linesAux (desc ++ ['\n']) [] line hline hcm with h1 | h1
  · simp at h1
  · rcases List.mem_append.mp h1 with h2 | h2
    · exact h h2
    · simp at h2

theorem saveLineBody_undated (desc : RStr) : saveLineBody (Task.new desc none) = desc := by
  simp [saveLineBody, Task.new]

/-! ### Shape of the export output -/

theorem exportLineBody_no_newline {t : Task} (h : ¬ '\n' ∈ t.description) :
    ¬ '\n' ∈ exportLineBody t := by
  intro hm
  unfold exportLineBody at hm
  rcases List.mem_append.mp hm with h1 | h1
  · exact h h1
  · rcases List.mem_cons.mp h1 with h2 | h2
    · exact absurd h2 (by decide)
    · cases ho : t.due_date with
      | none => rw [ho] at h2; simp at h2
      | some d => rw [ho] at h2; exact newline_not_mem_displayDT d h2

theorem exportLineBody_getLast (t : Task) : ¬ (exportLineBody t).getLast? = some '\r' := by
  unfold exportLineBody
  cases ho : t.due_date with
  | none =>
    rw [List.getLast?_append_of_ne_nil _ (by simp), show (',' :: ([] : RStr)) = [','] from rfl,
      List.getLast?_singleton]
    decide
  | some d =>
    rw [List.getLast?_append_of_ne_nil _ (by simp),
      show ',' :: displayDT d = [','] ++ displayDT d from rfl,
      List.getLast?_append_of_ne_nil _ (displayDT_ne_nil d), displayDT_getLast]
    decide

theorem linesAux_export_chunks : ∀ (ts : List Task),
    (∀ t ∈ ts, ¬ '\n' ∈ t.description) →
    linesAux [] ((ts.map (fun t => exportLineBody t ++ ['\n'])).flatten) =
      ts.map exportLineBody := by
  intro ts
  induction ts with
  | nil => intro _; rfl
  | cons t ts ih =>
    intro h
    simp only [List.map_cons, List.flatten_cons]
    have hb : ¬ '\n' ∈ exportLineBody t :=
      exportLineBody_no_newline (h t (List.mem_cons_self t ts))
    rw [List.append_assoc, List.singleton_append, linesAux_line _ hb [] _, List.nil_append,
      stripCR_of_getLast (exportLineBody_getLast t),
      ih (fun u hu => h u (List.mem_cons_of_mem t hu))]

theorem rustSplit_exportLineBody {t : Task} (h : ¬ ',' ∈ t.description) :
    rustSplit ',' (exportLineBody t) =
      [t.description, match t.due_date with | some d => displayDT d | none => []] := by
  unfold exportLineBody
  cases ho : t.due_date with
  | none =>
    rw [rustSplit_append_cons h]
    rfl
  | some d =>
    rw [rustSplit_append_cons h, rustSplit_not_mem (comma_not_mem_displayDT d)]

/-! ### The claims -/

/-- Claim C1 (amended): for every list of tasks in which every task has a
    (valid) due date and no description contains the comma delimiter or a
    newline, running `save_tasks` and then `load_tasks` into an empty list
    reproduces the same descriptions and the same due instants in the same
    order. -/
theorem C1_roundTrip (ts : List Task)
    (hdue : ∀ t ∈ ts, dueValid t.due_date)
    (hdesc : ∀ t ∈ ts, ¬ ',' ∈ t.description ∧ ¬ '\n' ∈ t.description) :
    load_tasks (some (save_tasks ts)) [] = ts := by
  rw [load_tasks_some, List.nil_append]
  exact loadString_save ts hdue hdesc

/-- Witness for C1: a concrete two-task list (one with a fractional-second due
    instant) whose save/load round trip is the identity. -/
theorem C1_roundTrip_witness :
    (∀ t ∈ ([Task.new ("Buy milk".toList) (some ⟨2024, 1, 1, 10, 0, 0, 0⟩),
        Task.new ("Pay rent".toList) (some ⟨2023, 12, 31, 23, 59, 59, 500000000⟩)] : List Task),
      dueValid t.due_date) ∧
    (∀ t ∈ ([Task.new ("Buy milk".toList) (some ⟨2024, 1, 1, 10, 0, 0, 0⟩),
        Task.new ("Pay rent".toList) (some ⟨2023, 12, 31, 23, 59, 59, 500000000⟩)] : List Task),
      ¬ ',' ∈ t.description ∧ ¬ '\n' ∈ t.description) ∧
    load_tasks (some (save_tasks
        [Task.new ("Buy milk".toList) (some ⟨2024, 1, 1, 10, 0, 0, 0⟩),
         Task.new ("Pay rent".toList) (some ⟨2023, 12, 31, 23, 59, 59, 500000000⟩)])) [] =
      [Task.new ("Buy milk".toList) (some ⟨2024, 1, 1, 10, 0, 0, 0⟩),
       Task.new ("Pay rent".toList) (some ⟨2023, 12, 31, 23, 59, 59, 500000000⟩)] :=
  ⟨by decide, by decide, C1_roundTrip _ (by decide) (by decide)⟩

/-- Counterexample to C1 as stated: a dated task whose description contains
    the delimiter is not reproduced by the round trip (its saved line has
    three fields and is dropped). -/
theorem C1_cex :
    load_tasks (some (save_tasks
        [Task.new ("a,b".toList) (some ⟨2024, 1, 1, 10, 0, 0, 0⟩)])) []
      ≠ [Task.new ("a,b".toList) (some ⟨2024, 1, 1, 10, 0, 0, 0⟩)] := by
  decide

/-- Claim C2 (code bug): `DateTime::parse_from_str` with the offset-less
    format `"%Y-%m-%d %H:%M:%S"` fails on every input, because
    `Parsed::to_datetime` requires an offset the format never provides; in
    particular the due-date input `2024-01-01 10:00:00`, which matches the
    prompted pattern, is rejected and `add_task` re-prompts without adding a
    task, contrary to the claim. -/
theorem C2_dueParse_neverSucceeds :
    (∀ cs : RStr, dtParseFromStrFixed cs = none) ∧
    add_task ("Buy milk".toList) ("2024-01-01 10:00:00".toList) [] = none := by
  constructor
  · intro cs
    unfold dtParseFromStrFixed parseFixedFmt
    cases hq : parseFixedFields cs with
    | none => rfl
    | some v => rfl
  · decide

/-- Claim C3 (amended): a persisted line whose comma-split field count is not
    exactly two is silently dropped; and a task with no due date whose
    description does not contain the delimiter is dropped entirely by a
    save/load round trip, wherever it sits in the list. -/
theorem C3_dropRules :
    (∀ l : RStr, (rustSplit ',' l).length ≠ 2 → parseLine l = none) ∧
    (∀ (A B : List Task) (desc : RStr), ¬ ',' ∈ desc →
      load_tasks (some (save_tasks (A ++ Task.new desc none :: B))) [] =
        load_tasks (some (save_tasks (A ++ B))) []) := by
  constructor
  · intro l h
    exact parseLine_len_ne_two h
  · intro A B desc h
    rw [load_tasks_some, load_tasks_some, List.nil_append, List.nil_append]
    have hmid : save_tasks (A ++ Task.new desc none :: B) =
        save_tasks A ++ ((desc ++ ['\n']) ++ save_tasks B) := by
      rw [save_tasks_append, save_tasks_cons, saveLineBody_undated]
    have hterm : save_tasks A = [] ∨ (save_tasks A).getLast? = some '\n' := by
      by_cases hA : A = []
      · subst hA; exact Or.inl rfl
      · exact Or.inr (save_getLast hA)
    have hterm2 : (desc ++ ['\n']) = [] ∨ (desc ++ ['\n']).getLast? = some '\n' :=
      Or.inr (by simp)
    rw [hmid, loadString_append_term hterm, loadString_append_term hterm2,
      loadString_undated h, save_tasks_append, loadString_append_term hterm]
    simp

/-- Witness for C3: a malformed one-field line is dropped, and a concrete
    undated task vanishes from the round trip. -/
theorem C3_dropRules_witness :
    parseLine ("no comma here".toList) = none ∧
    load_tasks (some (save_tasks [Task.new ("Call mom".toList) none])) [] =
      load_tasks (some (save_tasks ([] : List Task))) [] :=
  ⟨C3_dropRules.1 _ (by decide), C3_dropRules.2 [] [] _ (by decide)⟩

/-- Counterexample to C3 as stated: an undated task whose description contains
    one comma is not dropped entirely — its saved line has two fields, so the
    loader adds a (mangled) task. -/
theorem C3_cex :
    load_tasks (some (save_tasks [Task.new ("a,b".toList) none])) [] ≠ [] := by
  decide

/-- Claim C4: `is_due` returns true iff the due date is present as `some d`
    and `now >= d`; it is true at the boundary `now = d` and always false
    without a due date. -/
theorem C4_is_due :
    (∀ (t : Task) (now : DateTime),
      t.is_due now = true ↔ ∃ d, t.due_date = some d ∧ DateTime.le d now) ∧
    (∀ (s : RStr) (d : DateTime), (Task.new s (some d)).is_due d = true) ∧
    (∀ (s : RStr) (now : DateTime), (Task.new s none).is_due now = false) := by
  refine ⟨?_, ?_, ?_⟩
  · intro t now
    unfold Task.is_due
    cases ho : t.due_date with
    | none => simp
    | some d => simp
  · intro s d
    unfold Task.is_due Task.new
    simp [DateTime.le]
  · intro s now
    rfl

/-- Claim C5: a persisted line that splits into exactly two fields whose
    second field fails to parse as a timestamp is kept as a task with the
    first field as description and no due date. -/
theorem C5_badTimestampKept (l a b : RStr) (h1 : rustSplit ',' l = [a, b])
    (h2 : dtFromStr b = none) : parseLine l = some (Task.new a none) := by
  rw [parseLine_two h1, h2]

/-- Witness for C5: the concrete line `Buy milk,not-a-date`. -/
theorem C5_badTimestampKept_witness :
    rustSplit ',' ("Buy milk,not-a-date".toList) = ["Buy milk".toList, "not-a-date".toList] ∧
    dtFromStr ("not-a-date".toList) = none ∧
    parseLine ("Buy milk,not-a-date".toList) = some (Task.new ("Buy milk".toList) none) :=
  ⟨by decide, by decide,
    C5_badTimestampKept ("Buy milk,not-a-date".toList) ("Buy milk".toList)
      ("not-a-date".toList) (by decide) (by decide)⟩

/-- Claim C6: `load_tasks` never fails — a missing/unreadable file yields the
    caller's list unchanged — and on a readable file it appends the loaded
    tasks in file order to the existing in-memory list without clearing it. -/
theorem C6_load_total_append :
    (∀ ts : List Task, load_tasks none ts = ts) ∧
    (∀ (c : RStr) (ts : List Task), load_tasks (some c) ts = ts ++ loadString c) := by
  constructor
  · intro ts
    rfl
  · intro c ts
    exact load_tasks_some c ts

/-- Claim C7 (amended): for every task list whose descriptions contain neither
    the comma delimiter nor a newline, the export output is the literal header
    line `Description,Due Date` followed by exactly one line per task in list
    order, each splitting into exactly two comma-separated fields with the
    second field empty when the task has no due date. -/
theorem C7_export_shape (ts : List Task)
    (hdesc : ∀ t ∈ ts, ¬ ',' ∈ t.description ∧ ¬ '\n' ∈ t.description) :
    linesOf (export_tasks_to_csv ts) =
      ("Description,Due Date".toList) :: ts.map exportLineBody ∧
    ∀ t ∈ ts, rustSplit ',' (exportLineBody t) =
      [t.description, match t.due_date with | some d => displayDT d | none => []] := by
  constructor
  · unfold export_tasks_to_csv linesOf
    rw [List.append_assoc, List.singleton_append, linesAux_line _ (by decide) [] _,
      List.nil_append, stripCR_of_getLast (by decide),
      linesAux_export_chunks ts (fun t ht => (hdesc t ht).2)]
  · intro t ht
    exact rustSplit_exportLineBody (hdesc t ht).1

/-- Witness for C7: a concrete dated-plus-undated list. -/
theorem C7_export_shape_witness :
    (∀ t ∈ ([Task.new ("Buy milk".toList) (some ⟨2024, 1, 1, 10, 0, 0, 0⟩),
        Task.new ("Call mom".toList) none] : List Task),
      ¬ ',' ∈ t.description ∧ ¬ '\n' ∈ t.description) ∧
    (linesOf (export_tasks_to_csv
        [Task.new ("Buy milk".toList) (some ⟨2024, 1, 1, 10, 0, 0, 0⟩),
         Task.new ("Call mom".toList) none]) =
      ("Description,Due Date".toList) ::
        ([Task.new ("Buy milk".toList) (some ⟨2024, 1, 1, 10, 0, 0, 0⟩),
          Task.new ("Call mom".toList) none] : List Task).map exportLineBody ∧
    ∀ t ∈ ([Task.new ("Buy milk".toList) (some ⟨2024, 1, 1, 10, 0, 0, 0⟩),
        Task.new ("Call mom".toList) none] : List Task),
      rustSplit ',' (exportLineBody t) =
        [t.description, match t.due_date with | some d => displayDT d | none => []]) :=
  ⟨by decide, C7_export_shape _ (by decide)⟩

/-- Counterexample to C7 as stated: a description containing the delimiter
    produces a task line with three comma-separated fields. -/
theorem C7_cex :
    (rustSplit ','
      ((linesOf (export_tasks_to_csv [Task.new ("a,b".toList) none])).getD 1 [])).length
      = 3 := by
  decide

/-- Counterexample to C8 as stated: the exported line for the spec's example
    task is not `Buy milk,2024-01-01 10:00:00+00:00`. -/
theorem C8_cex :
    (linesOf (export_tasks_to_csv
        [Task.new ("Buy milk".toList) (some ⟨2024, 1, 1, 10, 0, 0, 0⟩)])).getD 1 []
      ≠ "Buy milk,2024-01-01 10:00:00+00:00".toList := by
  decide

/-- Claim C8 (amended): the export renders a due date with chrono's
    `Display` for `DateTime<Utc>` — the UTC civil fields followed by the
    timezone name, `YYYY-MM-DD HH:MM:SS UTC`, not a numeric-offset or
    local-timezone form — so the spec's example task exports as the line
    `Buy milk,2024-01-01 10:00:00 UTC`. -/
theorem C8_export_format :
    (∀ (s : RStr) (d : DateTime),
      exportLineBody (Task.new s (some d)) = s ++ ',' :: displayDT d) ∧
    linesOf (export_tasks_to_csv
        [Task.new ("Buy milk".toList) (some ⟨2024, 1, 1, 10, 0, 0, 0⟩)]) =
      ["Description,Due Date".toList, "Buy milk,2024-01-01 10:00:00 UTC".toList] := by
  constructor
  · intro s d
    rfl
  · decide

/-- Claim C9: `view_tasks`, `save_tasks` and `export_tasks_to_csv` leave the
    in-memory task list unchanged — they only read it (immutable borrow) while
    writing to the console or a file. -/
theorem C9_frame : ∀ (o : Int) (s : AppState),
    (viewOp o s).tasks = s.tasks ∧ (saveOp s).tasks = s.tasks ∧
      (exportOp s).tasks = s.tasks :=
  fun _ _ => ⟨rfl, rfl, rfl⟩

/-- Claim C10: `add_task` stores the description line with leading and
    trailing whitespace (including the line terminator) trimmed, so inputs
    differing only in surrounding whitespace create tasks with equal
    descriptions. -/
theorem C10_trimmedDescription :
    (∀ (raw : RStr) (ts : List Task),
      add_task raw [] ts = some (ts ++ [Task.new (rustTrim raw) none])) ∧
    (∀ (r1 r2 due : RStr) (ts : List Task), rustTrim r1 = rustTrim r2 →
      add_task r1 due ts = add_task r2 due ts) := by
  constructor
  · intro raw ts
    rfl
  · intro r1 r2 due ts h
    unfold add_task
    rw [h]

/-- Witness for C10: an input padded with spaces and the line terminator
    behaves exactly like the bare input. -/
theorem C10_trimmedDescription_witness :
    rustTrim ("  Buy milk \n".toList) = rustTrim ("Buy milk".toList) ∧
    add_task ("  Buy milk \n".toList) [] [] = add_task ("Buy milk".toList) [] [] ∧
    add_task ("  Buy milk \n".toList) [] [] = some [Task.new ("Buy milk".toList) none] :=
  ⟨by decide, C10_trimmedDescription.2 _ _ _ _ (by decide), by decide⟩

end Todo
